import Mathlib

/-!
Verification of the task-manager application (`app.py`): a shallow embedding
of its credential store, task store and the user-facing operations, together
with proofs of the behavioural properties stated in the specification.

Modelling conventions:
* Python strings are Lean `String`s; Python `int` is `Int`; machine words in
  the hash computation are `Nat` reduced modulo `2 ^ 32`.
* The console is modelled by an explicit input stream (`List String`, one
  entry per `input()` call) and an output transcript (`List String`, one
  entry per `print` call).  An exhausted input stream, like a decode error
  on a persisted document, yields no normal return value (`retval = none`).
* The file system is a record of the two persisted stores: the credential
  document `users.json` and one task document per user, stored as parsed
  JSON values.  `json.dump` is deterministic on a given value, so equality
  of the stored values coincides with byte-for-byte equality of the files.
-/

/-! ## SHA-256 (the `hashlib.sha256(...).hexdigest()` call in `hash_password`)

A faithful executable SHA-256 over `Nat`, words reduced mod `2 ^ 32`,
digest rendered as the usual lowercase hex string. -/

namespace Sha256

def w32 (n : Nat) : Nat := n % 4294967296

def rotr (x n : Nat) : Nat := w32 ((x >>> n) ||| (x <<< (32 - n)))

def bsig0 (x : Nat) : Nat := rotr x 2 ^^^ rotr x 13 ^^^ rotr x 22

def bsig1 (x : Nat) : Nat := rotr x 6 ^^^ rotr x 11 ^^^ rotr x 25

def ssig0 (x : Nat) : Nat := rotr x 7 ^^^ rotr x 18 ^^^ (x >>> 3)

def ssig1 (x : Nat) : Nat := rotr x 17 ^^^ rotr x 19 ^^^ (x >>> 10)

/-- The 64 round constants of FIPS 180-4 §4.2.2, written in decimal. -/
def roundK : List Nat :=
  [1116352408, 1899447441, 3049323471, 3921009573, 961987163,
   1508970993, 2453635748, 2870763221, 3624381080, 310598401,
   607225278, 1426881987, 1925078388, 2162078206, 2614888103,
   3248222580, 3835390401, 4022224774, 264347078, 604807628,
   770255983, 1249150122, 1555081692, 1996064986, 2554220882,
   2821834349, 2952996808, 3210313671, 3336571891, 3584528711,
   113926993, 338241895, 666307205, 773529912, 1294757372,
   1396182291, 1695183700, 1986661051, 2177026350, 2456956037,
   2730485921, 2820302411, 3259730800, 3345764771, 3516065817,
   3600352804, 4094571909, 275423344, 430227734, 506948616,
   659060556, 883997877, 958139571, 1322822218, 1537002063,
   1747873779, 1955562222, 2024104815, 2227730452, 2361852424,
   2428436474, 2756734187, 3204031479, 3329325298]

/-- The eight initial hash words of FIPS 180-4 §5.3.3, written in decimal. -/
def initH : List Nat :=
  [1779033703, 3144134277, 1013904242, 2773480762,
   1359893119, 2600822924, 528734635, 1541459225]

def toBytesBE (numBytes x : Nat) : List Nat :=
  (List.range numBytes).map (fun i => (x >>> (8 * (numBytes - 1 - i))) % 256)

def sha256pad (msg : List Nat) : List Nat :=
  msg ++ [128] ++ List.replicate ((120 - (msg.length + 1) % 64) % 64) 0
      ++ toBytesBE 8 (8 * msg.length)

def bytesToWords : List Nat → List Nat
  | a :: b :: c :: d :: rest =>
      ((((a <<< 8) ||| b) <<< 8 ||| c) <<< 8 ||| d) :: bytesToWords rest
  | _ => []

/-- One new schedule word, computed from the reversed schedule built so far:
`w[t] = ssig1 w[t-2] + w[t-7] + ssig0 w[t-15] + w[t-16]` (mod `2 ^ 32`). -/
def schedNext (rws : List Nat) : Nat :=
  w32 (ssig1 (rws.getD 1 0) + rws.getD 6 0 + ssig0 (rws.getD 14 0) + rws.getD 15 0)

def schedExtend : Nat → List Nat → List Nat
  | 0, rws => rws
  | n + 1, rws => schedExtend n (schedNext rws :: rws)

def schedule (block : List Nat) : List Nat :=
  (schedExtend 48 block.reverse).reverse

def chFn (e f g : Nat) : Nat := (e &&& f) ^^^ ((e ^^^ 4294967295) &&& g)

def majFn (a b c : Nat) : Nat := (a &&& b) ^^^ (a &&& c) ^^^ (b &&& c)

def compressRound (st : List Nat) (kw : Nat × Nat) : List Nat :=
  match st with
  | [a, b, c, d, e, f, g, h] =>
    let t1 := w32 (h + bsig1 e + chFn e f g + kw.1 + kw.2)
    let t2 := w32 (bsig0 a + majFn a b c)
    [w32 (t1 + t2), a, b, c, w32 (d + t1), e, f, g]
  | other => other

def compressBlock (h : List Nat) (block : List Nat) : List Nat :=
  let st := ((schedule block).zip roundK).foldl compressRound h
  (h.zip st).map (fun p => w32 (p.1 + p.2))

/-- Process the padded message 64 bytes at a time; `fuel` bounds the number
of blocks (the byte length of the padded message is always enough). -/
def run : Nat → List Nat → List Nat → List Nat
  | _, h, [] => h
  | 0, h, _ => h
  | n + 1, h, bytes =>
      run n (compressBlock h (bytesToWords (bytes.take 64))) (bytes.drop 64)

def hexDigit (n : Nat) : Char :=
  if n < 10 then Char.ofNat (48 + n) else Char.ofNat (87 + n)

def toHex8 (x : Nat) : List Char :=
  (List.range 8).map (fun i => hexDigit ((x >>> (4 * (7 - i))) % 16))

def digest (msg : List Nat) : String :=
  let padded := sha256pad msg
  String.mk ((run padded.length initH padded).map toHex8).flatten

end Sha256

/-- UTF-8 encoding of one code point (Python's `str.encode()` default). -/
def utf8Bytes (c : Nat) : List Nat :=
  if c < 128 then [c]
  else if c < 2048 then
    [192 ||| (c >>> 6), 128 ||| (c &&& 63)]
  else if c < 65536 then
    [224 ||| (c >>> 12), 128 ||| ((c >>> 6) &&& 63), 128 ||| (c &&& 63)]
  else
    [240 ||| (c >>> 18), 128 ||| ((c >>> 12) &&& 63),
     128 ||| ((c >>> 6) &&& 63), 128 ||| (c &&& 63)]

def strBytes (s : String) : List Nat :=
  (s.data.map (fun c => utf8Bytes c.toNat)).flatten

/-! ## Python string and integer helpers -/

/-- The characters Python's `str.strip()` removes (ASCII whitespace; the
exotic Unicode whitespace code points never arise in this development). -/
def isPySpace (c : Char) : Bool :=
  c == ' ' || c == '\t' || c == '\n' || c == '\r' || c == '\x0b' || c == '\x0c'

def stripChars (l : List Char) : List Char :=
  ((l.dropWhile isPySpace).reverse.dropWhile isPySpace).reverse

/-- Python's `str.strip()`. -/
def pyStrip (s : String) : String := String.mk (stripChars s.data)

def digitVal (c : Char) : Option Nat :=
  if 48 ≤ c.toNat ∧ c.toNat ≤ 57 then some (c.toNat - 48) else none

def digitsToNat (acc : Nat) : List Char → Option Nat
  | [] => some acc
  | c :: cs =>
    match digitVal c with
    | some d => digitsToNat (10 * acc + d) cs
    | none => none

/-- Python's `int(s)` for a decimal string: surrounding whitespace is
stripped, an optional sign precedes a non-empty digit run; anything else
raises `ValueError`, modelled as `none`.  (Digit-group underscores and
non-ASCII digits, which `int` also accepts, never arise here.) -/
def pyInt (s : String) : Option Int :=
  match (pyStrip s).data with
  | [] => none
  | '+' :: cs =>
    match cs with
    | [] => none
    | _ => (digitsToNat 0 cs).map Int.ofNat
  | '-' :: cs =>
    match cs with
    | [] => none
    | _ => (digitsToNat 0 cs).map (fun n => -(n : Int))
  | cs => (digitsToNat 0 cs).map Int.ofNat

/-! ## JSON documents and the two persisted stores

`json.dump`/`json.load` translate between Python values and JSON documents;
formatting (`indent=4`) is deterministic, so a document is modelled by the
parsed value.  Only the forms this program writes are needed: objects,
arrays, strings and integers. -/

namespace App

inductive Json where
  | str : String → Json
  | int : Int → Json
  | obj : List (String × Json) → Json
  | arr : List Json → Json

/-- Lookup in a Python dict (first binding; bindings are unique). -/
def dictGet {α : Type} : List (String × α) → String → Option α
  | [], _ => none
  | p :: ps, k => if p.1 = k then some p.2 else dictGet ps k

/-- Python dict membership test (`k in d`). -/
def dictHas {α : Type} : List (String × α) → String → Bool
  | [], _ => false
  | p :: ps, k => if p.1 = k then true else dictHas ps k

/-- Python dict assignment `d[k] = v`: replace in place when the key exists
(insertion order is preserved), append otherwise. -/
def dictInsert {α : Type} : List (String × α) → String → α → List (String × α)
  | [], k, v => [(k, v)]
  | p :: ps, k, v => if p.1 = k then (k, v) :: ps else p :: dictInsert ps k v

/-- One task record, `{'id': ..., 'description': ..., 'status': ...}`.
The program creates and maintains exactly these three fields. -/
structure Task where
  id : Int
  description : String
  status : String
deriving DecidableEq, Repr

def statusPending : String := "Pending"

def statusCompleted : String := "Completed"

def usersToJson (users : List (String × String)) : Json :=
  Json.obj (users.map (fun p => (p.1, Json.str p.2)))

def decodeUsers : List (String × Json) → Option (List (String × String))
  | [] => some []
  | (k, Json.str v) :: rest =>
    match decodeUsers rest with
    | some m => some ((k, v) :: m)
    | none => none
  | _ => none

def jsonToUsers : Json → Option (List (String × String))
  | Json.obj fields => decodeUsers fields
  | _ => none

def taskToJson (t : Task) : Json :=
  Json.obj [("id", Json.int t.id), ("description", Json.str t.description),
            ("status", Json.str t.status)]

def jsonToTask : Json → Option Task
  | Json.obj fields =>
    match dictGet fields "id", dictGet fields "description",
          dictGet fields "status" with
    | some (Json.int i), some (Json.str d), some (Json.str s) => some ⟨i, d, s⟩
    | _, _, _ => none
  | _ => none

def tasksToJson (ts : List Task) : Json :=
  Json.arr (ts.map taskToJson)

def decodeTasks : List Json → Option (List Task)
  | [] => some []
  | j :: js =>
    match jsonToTask j, decodeTasks js with
    | some t, some ts => some (t :: ts)
    | _, _ => none

def jsonToTasks : Json → Option (List Task)
  | Json.arr items => decodeTasks items
  | _ => none

/-- The persisted state: `users.json` (absent = `none`) and the per-user
task documents in the `tasks` directory, keyed by file path.  (`makedirs`
only ensures the directory exists and needs no modelling.) -/
structure FS where
  usersFile : Option Json
  taskFiles : List (String × Json)

def FS.empty : FS := ⟨none, []⟩

/-- The outcome of running one interactive operation: `retval` is the
function's return value (`none` when no normal return happens — the input
stream is exhausted or a persisted document fails to decode, which in the
source raises), the file system after the run, and the printed transcript. -/
structure RunResult (α : Type) where
  retval : Option α
  fs : FS
  out : List String

/-! ## File handling helpers (`load_users` … `hash_password`) -/

/-- `load_users`: the account mapping in `users.json`; `{}` when the file
does not exist; `none` when the document does not decode to a mapping
(in the source `json.load` raises there). -/
def load_users (fs : FS) : Option (List (String × String)) :=
  match fs.usersFile with
  | none => some []
  | some j => jsonToUsers j

/-- `save_users`: overwrite `users.json` with the mapping. -/
def save_users (users : List (String × String)) (fs : FS) : FS :=
  { fs with usersFile := some (usersToJson users) }

/-- `get_user_tasks_file`: `os.path.join(TASKS_DIR, f"{username}_tasks.json")`. -/
def get_user_tasks_file (username : String) : String :=
  "tasks/" ++ username ++ "_tasks.json"

/-- `load_tasks`: the user's task list; `[]` when the file does not exist;
`none` when the document does not decode to a task list. -/
def load_tasks (username : String) (fs : FS) : Option (List Task) :=
  match dictGet fs.taskFiles (get_user_tasks_file username) with
  | none => some []
  | some j => jsonToTasks j

/-- `save_tasks`: overwrite the user's task file with the list. -/
def save_tasks (username : String) (tasks : List Task) (fs : FS) : FS :=
  { fs with taskFiles := dictInsert fs.taskFiles (get_user_tasks_file username) (tasksToJson tasks) }

/-- `hash_password`: `hashlib.sha256(password.encode()).hexdigest()`. -/
def hash_password (password : String) : String :=
  Sha256.digest (strBytes password)

/-! ## User authentication (`register_user`, `login_user`) -/

def msgUserEmpty : String := "Username cannot be empty."

def msgUserTaken : String := "Username already exists. Please choose a different one."

def msgPwEmpty : String := "Password cannot be empty. Registration failed."

def msgRegSuccess : String := "Registration successful!"

def msgWelcome (username : String) : String := "Welcome, " ++ username ++ "!"

def msgInvalid : String := "Invalid username or password."

/-- The `while True` username loop of `register_user`, followed by the
password step, over the remaining input stream.  An empty or taken username
prints its message and loops for another username. -/
def register_go (users : List (String × String)) (fs : FS) :
    List String → RunResult Bool
  | [] => ⟨none, fs, []⟩
  | uRaw :: rest =>
    let username := pyStrip uRaw
    if username = "" then
      let r := register_go users fs rest
      ⟨r.retval, r.fs, msgUserEmpty :: r.out⟩
    else if dictHas users username = true then
      let r := register_go users fs rest
      ⟨r.retval, r.fs, msgUserTaken :: r.out⟩
    else
      match rest with
      | [] => ⟨none, fs, []⟩
      | pRaw :: _ =>
        let password := pyStrip pRaw
        if password = "" then ⟨some false, fs, [msgPwEmpty]⟩
        else
          ⟨some true,
           save_users (dictInsert users username (hash_password password)) fs,
           [msgRegSuccess]⟩

/-- `register_user`. -/
def register_user (stdin : List String) (fs : FS) : RunResult Bool :=
  match load_users fs with
  | none => ⟨none, fs, []⟩
  | some users => register_go users fs stdin

/-- `login_user`: reads username and password (both stripped), succeeds
iff the username is a key of the mapping and the stored hash equals the
hash of the entered password; both failure causes print the same message. -/
def login_user (stdin : List String) (fs : FS) : RunResult (Option String) :=
  match load_users fs with
  | none => ⟨none, fs, []⟩
  | some users =>
    match stdin with
    | uRaw :: pRaw :: _ =>
      let username := pyStrip uRaw
      let password := pyStrip pRaw
      if dictHas users username = true ∧
          dictGet users username = some (hash_password password) then
        ⟨some (some username), fs, [msgWelcome username]⟩
      else
        ⟨some none, fs, [msgInvalid]⟩
    | _ => ⟨none, fs, []⟩

/-! ## Task management -/

def msgDescEmpty : String := "Task description cannot be empty."

def msgAdded (description : String) (id : Int) : String :=
  "Task \x27" ++ description ++ "\x27 (ID: " ++ toString id ++ ") added successfully."

def msgNoTasks : String := "No tasks found."

def viewHeader : String := "\n--- Your Tasks ---"

def taskLine (t : Task) : String :=
  "ID: " ++ toString t.id ++ ", Description: " ++ t.description ++ ", Status: " ++ t.status

def viewFooter : String := "------------------\n"

def msgNoComplete : String := "No tasks to mark as completed."

def msgBadNumber : String := "Invalid input. Please enter a number."

def msgCompleted (id : Int) : String :=
  "Task ID " ++ toString id ++ " marked as Completed."

def msgTaskNotFound (id : Int) : String :=
  "Task with ID " ++ toString id ++ " not found."

def msgNoDelete : String := "No tasks to delete."

def msgDeleted (id : Int) : String :=
  "Task ID " ++ toString id ++ " deleted successfully."

/-- `max(task['id'] for task in tasks)` — only ever applied to a non-empty
list (`max` on an empty generator would raise). -/
def maxId (tasks : List Task) : Int :=
  match tasks with
  | [] => 0
  | t :: rest => rest.foldl (fun m x => max m x.id) t.id

/-- `add_task`: reads a description; when non-empty after stripping,
appends a `Pending` task with id `1` on an empty list and
`max(existing ids) + 1` otherwise, then persists. -/
def add_task (current_user : String) (stdin : List String) (fs : FS) : RunResult Unit :=
  match load_tasks current_user fs with
  | none => ⟨none, fs, []⟩
  | some tasks =>
    match stdin with
    | [] => ⟨none, fs, []⟩
    | dRaw :: _ =>
      let description := pyStrip dRaw
      if description = "" then ⟨some (), fs, [msgDescEmpty]⟩
      else
        let task_id : Int := if tasks = [] then 1 else maxId tasks + 1
        let tasks2 := tasks ++ [⟨task_id, description, statusPending⟩]
        ⟨some (), save_tasks current_user tasks2 fs, [msgAdded description task_id]⟩

def viewLines (tasks : List Task) : List String :=
  viewHeader :: (tasks.map taskLine ++ [viewFooter])

/-- `view_tasks`: prints the list (or `No tasks found.`); no mutation. -/
def view_tasks (current_user : String) (fs : FS) : RunResult Unit :=
  match load_tasks current_user fs with
  | none => ⟨none, fs, []⟩
  | some tasks =>
    if tasks = [] then ⟨some (), fs, [msgNoTasks]⟩
    else ⟨some (), fs, viewLines tasks⟩

/-- The `for task in tasks: if task['id'] == task_id: … break` loop:
set the status of the first task with the given id to `Completed`. -/
def markFirst : List Task → Int → List Task
  | [], _ => []
  | t :: ts, i =>
    if t.id = i then { t with status := statusCompleted } :: ts
    else t :: markFirst ts i

/-- `mark_task_completed`: early-return on an empty list; then shows the
list (`view_tasks` re-reads the same file system, hence the same list),
reads an id, marks the first match and persists, or reports not-found
without saving. -/
def mark_task_completed (current_user : String) (stdin : List String) (fs : FS) :
    RunResult Unit :=
  match load_tasks current_user fs with
  | none => ⟨none, fs, []⟩
  | some tasks =>
    if tasks = [] then ⟨some (), fs, [msgNoComplete]⟩
    else
      match stdin with
      | [] => ⟨none, fs, (view_tasks current_user fs).out⟩
      | idRaw :: _ =>
        match pyInt idRaw with
        | none => ⟨some (), fs, (view_tasks current_user fs).out ++ [msgBadNumber]⟩
        | some task_id =>
          if tasks.any (fun t => t.id = task_id) then
            ⟨some (), save_tasks current_user (markFirst tasks task_id) fs,
             (view_tasks current_user fs).out ++ [msgCompleted task_id]⟩
          else
            ⟨some (), fs, (view_tasks current_user fs).out ++ [msgTaskNotFound task_id]⟩

/-- `delete_task`: early-return on an empty list; then shows the list,
reads an id, keeps the tasks whose id differs, and persists only when the
length actually decreased. -/
def delete_task (current_user : String) (stdin : List String) (fs : FS) :
    RunResult Unit :=
  match load_tasks current_user fs with
  | none => ⟨none, fs, []⟩
  | some tasks =>
    if tasks = [] then ⟨some (), fs, [msgNoDelete]⟩
    else
      match stdin with
      | [] => ⟨none, fs, (view_tasks current_user fs).out⟩
      | idRaw :: _ =>
        match pyInt idRaw with
        | none => ⟨some (), fs, (view_tasks current_user fs).out ++ [msgBadNumber]⟩
        | some task_id =>
          let tasks2 := tasks.filter (fun t => !(t.id = task_id))
          if tasks2.length < tasks.length then
            ⟨some (), save_tasks current_user tasks2 fs,
             (view_tasks current_user fs).out ++ [msgDeleted task_id]⟩
          else
            ⟨some (), fs, (view_tasks current_user fs).out ++ [msgTaskNotFound task_id]⟩

/-- Iterated `add_task`, one description per add (for the properties about
sequences of adds). -/
def run_adds (current_user : String) (ds : List String) (fs : FS) : FS :=
  ds.foldl (fun s d => (add_task current_user [d] s).fs) fs

/-! ## Helper lemmas: dictionaries -/

theorem dictGet_insert_self {α : Type} (m : List (String × α)) (k : String) (v : α) :
    dictGet (dictInsert m k v) k = some v := by
  induction m with
  | nil => simp [dictInsert, dictGet]
  | cons p ps ih =>
    by_cases h : p.1 = k
    · simp [dictInsert, dictGet, h]
    · simp [dictInsert, dictGet, h, ih]

theorem dictHas_insert_self {α : Type} (m : List (String × α)) (k : String) (v : α) :
    dictHas (dictInsert m k v) k = true := by
  induction m with
  | nil => simp [dictInsert, dictHas]
  | cons p ps ih =>
    by_cases h : p.1 = k
    · simp [dictInsert, dictHas, h]
    · simp [dictInsert, dictHas, h, ih]

theorem dictInsert_idem {α : Type} (m : List (String × α)) (k : String) (v : α) :
    dictInsert (dictInsert m k v) k v = dictInsert m k v := by
  induction m with
  | nil => simp [dictInsert]
  | cons p ps ih =>
    by_cases h : p.1 = k
    · simp [dictInsert, h]
    · simp [dictInsert, h, ih]

theorem dictInsert_fresh {α : Type} (m : List (String × α)) (k : String) (v : α)
    (h : dictHas m k = false) : dictInsert m k v = m ++ [(k, v)] := by
  induction m with
  | nil => simp [dictInsert]
  | cons p ps ih =>
    by_cases hp : p.1 = k
    · simp [dictHas, hp] at h
    · simp [dictHas, hp] at h
      simp [dictInsert, hp, ih h]

/-! ## Helper lemmas: serialisation round-trips -/

theorem jsonToUsers_usersToJson (m : List (String × String)) :
    jsonToUsers (usersToJson m) = some m := by
  simp only [usersToJson, jsonToUsers]
  induction m with
  | nil => rfl
  | cons p ps ih => simp [decodeUsers, ih]

theorem jsonToTask_taskToJson (t : Task) : jsonToTask (taskToJson t) = some t := by
  rfl

theorem jsonToTasks_tasksToJson (ts : List Task) :
    jsonToTasks (tasksToJson ts) = some ts := by
  simp only [tasksToJson, jsonToTasks]
  induction ts with
  | nil => rfl
  | cons t rest ih => simp [decodeTasks, jsonToTask_taskToJson, ih]

theorem load_users_save_users (m : List (String × String)) (fs : FS) :
    load_users (save_users m fs) = some m := by
  simp [load_users, save_users, jsonToUsers_usersToJson]

theorem load_tasks_save_tasks (u : String) (ts : List Task) (fs : FS) :
    load_tasks u (save_tasks u ts fs) = some ts := by
  simp [load_tasks, save_tasks, dictGet_insert_self, jsonToTasks_tasksToJson]

theorem save_tasks_idem (u : String) (ts : List Task) (fs : FS) :
    save_tasks u ts (save_tasks u ts fs) = save_tasks u ts fs := by
  simp [save_tasks, dictInsert_idem]

end App

/-! ## Helper lemmas: `str.strip` -/

theorem stripChars_nil_of_all_space (l : List Char)
    (h : ∀ c ∈ l, isPySpace c = true) : stripChars l = [] := by
  unfold stripChars
  rw [List.dropWhile_eq_nil_iff.mpr h]
  rfl

theorem dropWhile_append_of_all_space (w l : List Char)
    (h : ∀ c ∈ w, isPySpace c = true) :
    (w ++ l).dropWhile isPySpace = l.dropWhile isPySpace := by
  rw [List.dropWhile_append, List.dropWhile_eq_nil_iff.mpr h]
  simp

theorem stripChars_pad (w₁ l w₂ : List Char)
    (h₁ : ∀ c ∈ w₁, isPySpace c = true) (h₂ : ∀ c ∈ w₂, isPySpace c = true) :
    stripChars (w₁ ++ l ++ w₂) = stripChars l := by
  unfold stripChars
  rw [List.append_assoc, dropWhile_append_of_all_space w₁ (l ++ w₂) h₁]
  rcases h : l.dropWhile isPySpace with _ | ⟨a, as⟩
  · have hl : ∀ c ∈ l, isPySpace c = true := List.dropWhile_eq_nil_iff.mp h
    have hlw : ∀ c ∈ l ++ w₂, isPySpace c = true := by
      intro c hc
      rcases List.mem_append.mp hc with hc | hc
      · exact hl c hc
      · exact h₂ c hc
    rw [List.dropWhile_eq_nil_iff.mpr hlw]
  · have hne : (l.dropWhile isPySpace).isEmpty = false := by
      rw [h]; rfl
    rw [List.dropWhile_append, hne]
    simp only [Bool.false_eq_true, if_false, List.reverse_append]
    rw [dropWhile_append_of_all_space w₂.reverse (l.dropWhile isPySpace).reverse
      (by intro c hc; exact h₂ c (List.mem_reverse.mp hc))]
    rw [h]

theorem pyStrip_pad (w₁ s w₂ : String)
    (h₁ : ∀ c ∈ w₁.data, isPySpace c = true) (h₂ : ∀ c ∈ w₂.data, isPySpace c = true) :
    pyStrip (w₁ ++ s ++ w₂) = pyStrip s := by
  unfold pyStrip
  rw [String.data_append, String.data_append, stripChars_pad w₁.data s.data w₂.data h₁ h₂]

theorem pyStrip_all_space (w : String) (h : ∀ c ∈ w.data, isPySpace c = true) :
    pyStrip w = "" := by
  unfold pyStrip
  rw [stripChars_nil_of_all_space w.data h]

namespace App

/-! ## Helper lemmas: `maxId` -/

theorem le_foldl_max (l : List Task) (acc : Int) :
    acc ≤ l.foldl (fun m x => max m x.id) acc := by
  induction l generalizing acc with
  | nil => exact le_refl acc
  | cons t rest ih =>
    exact le_trans (le_max_left acc t.id) (ih (max acc t.id))

theorem mem_le_foldl_max (l : List Task) :
    ∀ (acc : Int) (x : Task), x ∈ l → x.id ≤ l.foldl (fun m x => max m x.id) acc := by
  induction l with
  | nil => intro acc x hx; cases hx
  | cons t rest ih =>
    intro acc x hx
    rcases List.mem_cons.mp hx with h | h
    · subst h
      exact le_trans (le_max_right acc x.id) (le_foldl_max rest (max acc x.id))
    · exact ih (max acc t.id) x h

theorem foldl_max_cases (l : List Task) (acc : Int) :
    l.foldl (fun m x => max m x.id) acc = acc ∨
      ∃ x ∈ l, l.foldl (fun m x => max m x.id) acc = x.id := by
  induction l generalizing acc with
  | nil => exact Or.inl rfl
  | cons t rest ih =>
    rcases ih (max acc t.id) with h | ⟨x, hx, h⟩
    · rcases max_choice acc t.id with hm | hm
      · exact Or.inl (by simp only [List.foldl_cons]; rw [h, hm])
      · exact Or.inr ⟨t, List.mem_cons_self t rest, by simp only [List.foldl_cons]; rw [h, hm]⟩
    · exact Or.inr ⟨x, List.mem_cons_of_mem t hx, by simp only [List.foldl_cons]; rw [h]⟩

theorem le_maxId_of_mem (ts : List Task) (x : Task) (hx : x ∈ ts) : x.id ≤ maxId ts := by
  match ts, hx with
  | t :: rest, hx =>
    rcases List.mem_cons.mp hx with h | h
    · subst h
      exact le_foldl_max rest x.id
    · exact mem_le_foldl_max rest t.id x h


theorem maxId_mem (ts : List Task) (h : ts ≠ []) : ∃ x ∈ ts, maxId ts = x.id := by
  match ts, h with
  | t :: rest, _ =>
    rcases foldl_max_cases rest t.id with h | ⟨x, hx, hfold⟩
    · exact ⟨t, List.mem_cons_self t rest, h⟩
    · exact ⟨x, List.mem_cons_of_mem t hx, hfold⟩

/-! ## Helper lemmas: `markFirst` -/

theorem markFirst_map_id (ts : List Task) (i : Int) :
    (markFirst ts i).map Task.id = ts.map Task.id := by
  induction ts with
  | nil => rfl
  | cons t rest ih =>
    by_cases h : t.id = i
    · simp [markFirst, h]
    · simp [markFirst, h, ih]

theorem markFirst_idem (ts : List Task) (i : Int) :
    markFirst (markFirst ts i) i = markFirst ts i := by
  induction ts with
  | nil => rfl
  | cons t rest ih =>
    by_cases h : t.id = i
    · simp [markFirst, h]
    · simp [markFirst, h, ih]

theorem markFirst_eq_nil_iff (ts : List Task) (i : Int) :
    markFirst ts i = [] ↔ ts = [] := by
  cases ts with
  | nil => simp [markFirst]
  | cons t rest =>
    constructor
    · intro h
      by_cases ht : t.id = i <;> simp [markFirst, ht] at h
    · intro h; cases h

theorem markFirst_split (l₁ : List Task) (x : Task) (l₂ : List Task) (i : Int)
    (h₁ : ∀ y ∈ l₁, y.id ≠ i) (hx : x.id = i) :
    markFirst (l₁ ++ x :: l₂) i = l₁ ++ { x with status := statusCompleted } :: l₂ := by
  induction l₁ with
  | nil => simp [markFirst, hx]
  | cons y ys ih =>
    have hy : y.id ≠ i := h₁ y (List.mem_cons_self y ys)
    simp only [List.cons_append, markFirst, hy, if_false, List.append_eq]
    rw [ih (fun z hz => h₁ z (List.mem_cons_of_mem y hz))]

theorem markFirst_any (ts : List Task) (i : Int) :
    (markFirst ts i).any (fun t => t.id = i) = ts.any (fun t => t.id = i) := by
  induction ts with
  | nil => rfl
  | cons t rest ih =>
    by_cases h : t.id = i
    · simp [markFirst, h]
    · simp [markFirst, h, ih]

/-! ## Helper lemmas: branch behaviour of the operations -/

theorem register_go_success (users : List (String × String)) (fs : FS)
    (uRaw pRaw : String) (rest : List String)
    (hune : pyStrip uRaw ≠ "") (hfresh : dictHas users (pyStrip uRaw) = false)
    (hpne : pyStrip pRaw ≠ "") :
    register_go users fs (uRaw :: pRaw :: rest) =
      ⟨some true,
       save_users (dictInsert users (pyStrip uRaw) (hash_password (pyStrip pRaw))) fs,
       [msgRegSuccess]⟩ := by
  simp [register_go, hune, hfresh, hpne]

theorem register_go_pwempty (users : List (String × String)) (fs : FS)
    (uRaw pRaw : String) (rest : List String)
    (hune : pyStrip uRaw ≠ "") (hfresh : dictHas users (pyStrip uRaw) = false)
    (hpe : pyStrip pRaw = "") :
    register_go users fs (uRaw :: pRaw :: rest) = ⟨some false, fs, [msgPwEmpty]⟩ := by
  simp [register_go, hune, hfresh, hpe]

theorem register_go_single (users : List (String × String)) (fs : FS) (x : String) :
    (register_go users fs [x]).retval = none ∧ (register_go users fs [x]).fs = fs := by
  by_cases h1 : pyStrip x = ""
  · simp [register_go, h1]
  · by_cases h2 : dictHas users (pyStrip x) = true
    · simp [register_go, h1, h2]
    · simp [register_go, h1, h2]

theorem register_go_taken (users : List (String × String)) (fs : FS)
    (u p2 : String) (hu : pyStrip u = u) (hune : u ≠ "")
    (htaken : dictHas users u = true) :
    (register_go users fs [u, p2]).retval = none ∧
      (register_go users fs [u, p2]).fs = fs ∧
      (register_go users fs [u, p2]).out.head? = some msgUserTaken := by
  by_cases h1 : pyStrip p2 = "" <;> by_cases h2 : dictHas users (pyStrip p2) = true <;>
    simp [register_go, hu, hune, htaken, h1, h2]

theorem login_user_success (fs : FS) (users : List (String × String)) (uRaw pRaw : String)
    (hload : load_users fs = some users)
    (hhas : dictHas users (pyStrip uRaw) = true)
    (hget : dictGet users (pyStrip uRaw) = some (hash_password (pyStrip pRaw))) :
    login_user [uRaw, pRaw] fs =
      ⟨some (some (pyStrip uRaw)), fs, [msgWelcome (pyStrip uRaw)]⟩ := by
  simp [login_user, hload, hhas, hget]

theorem login_user_fail (fs : FS) (users : List (String × String)) (u p : String)
    (hload : load_users fs = some users)
    (hfail : ¬(dictHas users (pyStrip u) = true ∧
      dictGet users (pyStrip u) = some (hash_password (pyStrip p)))) :
    login_user [u, p] fs = ⟨some none, fs, [msgInvalid]⟩ := by
  simp only [login_user, hload]
  rw [if_neg hfail]

theorem add_task_step (user d : String) (fs : FS) (ts : List Task)
    (hload : load_tasks user fs = some ts) (hd : pyStrip d = d) (hdne : d ≠ "") :
    add_task user [d] fs =
      ⟨some (),
       save_tasks user
         (ts ++ [⟨if ts = [] then 1 else maxId ts + 1, d, statusPending⟩]) fs,
       [msgAdded d (if ts = [] then 1 else maxId ts + 1)]⟩ := by
  simp [add_task, hload, hd, hdne]

theorem mark_found (user s : String) (fs : FS) (ts : List Task) (t : Int)
    (hload : load_tasks user fs = some ts) (hne : ts ≠ [])
    (hs : pyInt s = some t) (hfound : ts.any (fun x => x.id = t) = true) :
    mark_task_completed user [s] fs =
      ⟨some (), save_tasks user (markFirst ts t) fs,
       (view_tasks user fs).out ++ [msgCompleted t]⟩ := by
  simp [mark_task_completed, hload, hne, hs, hfound]

theorem mark_not_found (user s : String) (fs : FS) (ts : List Task) (t : Int)
    (hload : load_tasks user fs = some ts) (hne : ts ≠ [])
    (hs : pyInt s = some t) (hmiss : ts.any (fun x => x.id = t) = false) :
    mark_task_completed user [s] fs =
      ⟨some (), fs, (view_tasks user fs).out ++ [msgTaskNotFound t]⟩ := by
  simp [mark_task_completed, hload, hne, hs, hmiss]

theorem delete_found (user s : String) (fs : FS) (ts : List Task) (t : Int)
    (hload : load_tasks user fs = some ts) (hne : ts ≠ [])
    (hs : pyInt s = some t)
    (hdec : (ts.filter (fun x => !(x.id = t))).length < ts.length) :
    delete_task user [s] fs =
      ⟨some (), save_tasks user (ts.filter (fun x => !(x.id = t))) fs,
       (view_tasks user fs).out ++ [msgDeleted t]⟩ := by
  simp only [delete_task, hload, hne, hs, if_neg hne]
  rw [if_pos hdec]
  simp

theorem delete_not_found (user s : String) (fs : FS) (ts : List Task) (t : Int)
    (hload : load_tasks user fs = some ts) (hne : ts ≠ [])
    (hs : pyInt s = some t)
    (hdec : ¬(ts.filter (fun x => !(x.id = t))).length < ts.length) :
    delete_task user [s] fs =
      ⟨some (), fs, (view_tasks user fs).out ++ [msgTaskNotFound t]⟩ := by
  simp only [delete_task, hload, hne, hs, if_neg hne]
  rw [if_neg hdec]
  simp

/-! ## Helper definitions and lemmas: id sequences produced by `add_task` -/

/-- `[k+1, k+2, …, k+n]` as integers. -/
def idsFrom (k : Nat) : Nat → List Int
  | 0 => []
  | n + 1 => ((k : Int) + 1) :: idsFrom (k + 1) n

/-- The tasks a run of successful adds appends when the current maximal id
is `k`: descriptions in order, ids `k+1, k+2, …`, all `Pending`. -/
def expectedAdds (k : Nat) : List String → List Task
  | [] => []
  | d :: ds => ⟨(k : Int) + 1, d, statusPending⟩ :: expectedAdds (k + 1) ds

theorem expectedAdds_map_id (ds : List String) :
    ∀ k : Nat, (expectedAdds k ds).map Task.id = idsFrom k ds.length := by
  induction ds with
  | nil => intro k; rfl
  | cons d rest ih => intro k; simp [expectedAdds, idsFrom, ih]

theorem idsFrom_length (n : Nat) : ∀ m : Nat, (idsFrom m n).length = n := by
  induction n with
  | zero => intro m; rfl
  | succ n ih => intro m; simp [idsFrom, ih]

theorem mem_idsFrom (n : Nat) :
    ∀ (m : Nat) (x : Int), x ∈ idsFrom m n → (m : Int) + 1 ≤ x ∧ x ≤ (m : Int) + n := by
  induction n with
  | zero => intro m x hx; cases hx
  | succ n ih =>
    intro m x hx
    rcases List.mem_cons.mp hx with h | h
    · subst h
      constructor
      · exact le_refl _
      · have : (0 : Int) ≤ n := Int.natCast_nonneg n
        push_cast
        omega
    · have := ih (m + 1) x h
      push_cast at this ⊢
      omega

theorem last_mem_idsFrom (n : Nat) (hn : 0 < n) :
    ∀ m : Nat, ((m : Int) + n) ∈ idsFrom m n := by
  induction n with
  | zero => cases hn
  | succ n ih =>
    intro m
    rcases Nat.eq_zero_or_pos n with h | h
    · subst h
      simp [idsFrom]
    · have := ih h (m + 1)
      simp only [idsFrom, List.mem_cons]
      right
      have heq : ((m : Int) + (n + 1 : Nat)) = ((m + 1 : Nat) : Int) + n := by
        push_cast
        ring
      rw [heq]
      exact this

theorem idsFrom_snoc (n : Nat) :
    ∀ m : Nat, idsFrom m (n + 1) = idsFrom m n ++ [(m : Int) + n + 1] := by
  induction n with
  | zero => intro m; simp [idsFrom]
  | succ n ih =>
    intro m
    have heq : (m : Int) + ((n + 1 : Nat) : Int) + 1 = ((m + 1 : Nat) : Int) + (n : Int) + 1 := by
      push_cast
      ring
    rw [heq,
        show idsFrom m (n + 1 + 1) = ((m : Int) + 1) :: idsFrom (m + 1) (n + 1) from rfl,
        show idsFrom m (n + 1) = ((m : Int) + 1) :: idsFrom (m + 1) n from rfl,
        ih (m + 1)]
    rfl

theorem pairwise_idsFrom (n : Nat) :
    ∀ m : Nat, List.Pairwise (fun a b : Int => a < b) (idsFrom m n) := by
  induction n with
  | zero => intro m; exact List.Pairwise.nil
  | succ n ih =>
    intro m
    refine List.Pairwise.cons ?_ (ih (m + 1))
    intro y hy
    have := (mem_idsFrom n (m + 1) y hy).1
    push_cast at this
    omega

theorem maxId_of_ids (ts : List Task) (k : Nat)
    (hids : ts.map Task.id = idsFrom 0 k) (hne : ts ≠ []) : maxId ts = k := by
  have hk : 0 < k := by
    rcases ts with _ | ⟨t, rest⟩
    · exact absurd rfl hne
    · have := idsFrom_length k 0
      rw [← hids] at this
      simp at this
      omega
  apply le_antisymm
  · rcases maxId_mem ts hne with ⟨x, hx, hmax⟩
    have hmem : x.id ∈ idsFrom 0 k := by
      rw [← hids]
      exact List.mem_map_of_mem Task.id hx
    have := (mem_idsFrom k 0 x.id hmem).2
    rw [hmax]
    simpa using this
  · have hmem : ((0 : Int) + k) ∈ ts.map Task.id := by
      rw [hids]
      exact last_mem_idsFrom k hk 0
    rcases List.mem_map.mp hmem with ⟨x, hx, hxid⟩
    have := le_maxId_of_mem ts x hx
    omega

/-- The invariant of a run of successful adds: starting from a list whose
ids are exactly `1 … k`, the run appends `expectedAdds k ds`. -/
theorem run_adds_spec (user : String) (ds : List String) :
    ∀ (fs : FS) (ts : List Task) (k : Nat),
      load_tasks user fs = some ts → ts.map Task.id = idsFrom 0 k →
      (∀ d ∈ ds, pyStrip d = d ∧ d ≠ "") →
      load_tasks user (run_adds user ds fs) = some (ts ++ expectedAdds k ds) := by
  induction ds with
  | nil =>
    intro fs ts k hload _ _
    simpa [run_adds, expectedAdds] using hload
  | cons d rest ih =>
    intro fs ts k hload hids hds
    have hd := hds d (List.mem_cons_self d rest)
    have hstep := add_task_step user d fs ts hload hd.1 hd.2
    have hnid : (if ts = [] then (1 : Int) else maxId ts + 1) = (k : Int) + 1 := by
      by_cases hne : ts = []
      · have hk0 : k = 0 := by
          have hlen := idsFrom_length k 0
          rw [← hids, hne] at hlen
          simpa using hlen.symm
        rw [if_pos hne, hk0]
        simp
      · rw [if_neg hne, maxId_of_ids ts k hids hne]
    have hrun : run_adds user (d :: rest) fs = run_adds user rest (add_task user [d] fs).fs := by
      simp [run_adds]
    rw [hrun, hstep]
    have hload1 : load_tasks user
        (save_tasks user
          (ts ++ [Task.mk (if ts = [] then 1 else maxId ts + 1) d statusPending]) fs) =
        some (ts ++ [Task.mk ((k : Int) + 1) d statusPending]) := by
      rw [hnid]
      exact load_tasks_save_tasks user _ fs
    have hids1 : (ts ++ [Task.mk ((k : Int) + 1) d statusPending]).map Task.id
        = idsFrom 0 (k + 1) := by
      rw [List.map_append, hids, idsFrom_snoc k 0]
      simp
    have := ih (save_tasks user
        (ts ++ [Task.mk (if ts = [] then 1 else maxId ts + 1) d statusPending]) fs)
      (ts ++ [Task.mk ((k : Int) + 1) d statusPending]) (k + 1) hload1 hids1
      (fun x hx => hds x (List.mem_cons_of_mem d hx))
    rw [this]
    simp [expectedAdds]

/-! ## Concrete values used by the witnesses and counterexamples -/

def userAlice : String := "alice"

def pwOne : String := "secret1"

def pwTwo : String := "other"

def descA : String := "buy milk"

def descB : String := "pay bills"

def descC : String := "call mom"

def strOne : String := "1"

def strTwo : String := "2"

def strFive : String := "5"

/-! ## The claims -/

/-- C1: for every non-empty username not already present in the credential
mapping and every non-empty password, `register_user` with that pair
succeeds — it inserts the username mapped to the password's hash and
persists — and a subsequent `login_user` with the same pair succeeds
returning the username as identity; a second registration attempt with the
same username fails (no success, no state change, the duplicate-username
message is printed) regardless of which password is supplied. -/
theorem register_then_login_roundtrip (fs : FS) (users : List (String × String))
    (u p p2 : String)
    (hload : load_users fs = some users)
    (hu : pyStrip u = u) (hune : u ≠ "")
    (hfresh : dictHas users u = false)
    (hp : pyStrip p = p) (hpne : p ≠ "") :
    register_user [u, p] fs =
      ⟨some true, save_users (dictInsert users u (hash_password p)) fs,
       [msgRegSuccess]⟩ ∧
    load_users (register_user [u, p] fs).fs = some (dictInsert users u (hash_password p)) ∧
    dictGet (dictInsert users u (hash_password p)) u = some (hash_password p) ∧
    login_user [u, p] (register_user [u, p] fs).fs =
      ⟨some (some u), (register_user [u, p] fs).fs, [msgWelcome u]⟩ ∧
    (register_user [u, p2] (register_user [u, p] fs).fs).retval = none ∧
    (register_user [u, p2] (register_user [u, p] fs).fs).fs = (register_user [u, p] fs).fs ∧
    (register_user [u, p2] (register_user [u, p] fs).fs).out.head? = some msgUserTaken := by
  have hreg : register_user [u, p] fs =
      ⟨some true, save_users (dictInsert users u (hash_password p)) fs, [msgRegSuccess]⟩ := by
    simp only [register_user, hload]
    have := register_go_success users fs u p []
      (by rw [hu]; exact hune) (by rw [hu]; exact hfresh) (by rw [hp]; exact hpne)
    rw [this, hu, hp]
  have hload2 : load_users (register_user [u, p] fs).fs =
      some (dictInsert users u (hash_password p)) := by
    rw [hreg]
    exact load_users_save_users _ fs
  have hlogin : login_user [u, p] (register_user [u, p] fs).fs =
      ⟨some (some u), (register_user [u, p] fs).fs, [msgWelcome u]⟩ := by
    have := login_user_success (register_user [u, p] fs).fs
      (dictInsert users u (hash_password p)) u p hload2
      (by rw [hu]; exact dictHas_insert_self users u (hash_password p))
      (by rw [hu, hp]; exact dictGet_insert_self users u (hash_password p))
    rw [this, hu]
  have hsecond := register_go_taken (dictInsert users u (hash_password p))
    (register_user [u, p] fs).fs u p2 hu hune (dictHas_insert_self users u (hash_password p))
  have hreg2 : register_user [u, p2] (register_user [u, p] fs).fs =
      register_go (dictInsert users u (hash_password p)) (register_user [u, p] fs).fs
        [u, p2] := by
    have hgen : ∀ gs : FS, load_users gs = some (dictInsert users u (hash_password p)) →
        register_user [u, p2] gs =
          register_go (dictInsert users u (hash_password p)) gs [u, p2] := by
      intro gs hgs
      simp only [register_user, hgs]
    exact hgen _ hload2
  exact ⟨hreg, hload2, dictGet_insert_self users u (hash_password p), hlogin,
    by rw [hreg2]; exact hsecond.1,
    by rw [hreg2]; exact hsecond.2.1,
    by rw [hreg2]; exact hsecond.2.2⟩

/-- C1 witness: a concrete successful registration and login for
`alice` / `secret1` from the empty store, and the failed re-registration. -/
theorem register_then_login_roundtrip_witness :
    register_user [userAlice, pwOne] FS.empty =
      ⟨some true, save_users (dictInsert [] userAlice (hash_password pwOne)) FS.empty,
       [msgRegSuccess]⟩ ∧
    load_users (register_user [userAlice, pwOne] FS.empty).fs =
      some (dictInsert [] userAlice (hash_password pwOne)) ∧
    dictGet (dictInsert [] userAlice (hash_password pwOne)) userAlice =
      some (hash_password pwOne) ∧
    login_user [userAlice, pwOne] (register_user [userAlice, pwOne] FS.empty).fs =
      ⟨some (some userAlice), (register_user [userAlice, pwOne] FS.empty).fs,
       [msgWelcome userAlice]⟩ ∧
    (register_user [userAlice, pwTwo] (register_user [userAlice, pwOne] FS.empty).fs).retval
      = none ∧
    (register_user [userAlice, pwTwo] (register_user [userAlice, pwOne] FS.empty).fs).fs
      = (register_user [userAlice, pwOne] FS.empty).fs ∧
    (register_user [userAlice, pwTwo] (register_user [userAlice, pwOne] FS.empty).fs).out.head?
      = some msgUserTaken :=
  register_then_login_roundtrip FS.empty [] userAlice pwOne pwTwo rfl (by decide)
    (by decide) rfl (by decide) (by decide)

/-- C2: authenticating with a wrong password for an existing username and
authenticating with a nonexistent username produce the very same result —
the same generic failure message, the same (unchanged) state and no
identity token — so the two failure causes are indistinguishable. -/
theorem login_failure_indistinguishable (fs : FS) (users : List (String × String))
    (u1 p1 u2 p2 : String)
    (hload : load_users fs = some users)
    (hhas : dictHas users (pyStrip u1) = true)
    (hwrong : dictGet users (pyStrip u1) ≠ some (hash_password (pyStrip p1)))
    (hmiss : dictHas users (pyStrip u2) = false) :
    login_user [u1, p1] fs = login_user [u2, p2] fs ∧
    login_user [u1, p1] fs = ⟨some none, fs, [msgInvalid]⟩ := by
  have h1 : login_user [u1, p1] fs = ⟨some none, fs, [msgInvalid]⟩ :=
    login_user_fail fs users u1 p1 hload (fun h => hwrong h.2)
  have h2 : login_user [u2, p2] fs = ⟨some none, fs, [msgInvalid]⟩ :=
    login_user_fail fs users u2 p2 hload (fun h => by rw [hmiss] at h; cases h.1)
  exact ⟨h1.trans h2.symm, h1⟩

/-- C2 witness: concrete store holding `alice` with a stored hash that is
not the hash of `other`; login as `alice`/`other` (wrong password) and as
`bob`/`other` (unknown user) coincide. -/
theorem login_failure_indistinguishable_witness :
    login_user [userAlice, pwTwo] (save_users [(userAlice, hash_password pwOne)] FS.empty) =
      login_user ["bob", pwTwo] (save_users [(userAlice, hash_password pwOne)] FS.empty) ∧
    login_user [userAlice, pwTwo] (save_users [(userAlice, hash_password pwOne)] FS.empty) =
      ⟨some none, save_users [(userAlice, hash_password pwOne)] FS.empty, [msgInvalid]⟩ :=
  login_failure_indistinguishable (save_users [(userAlice, hash_password pwOne)] FS.empty)
    [(userAlice, hash_password pwOne)] userAlice pwTwo "bob" pwTwo
    (load_users_save_users _ _) (by decide) (by decide) (by decide)

/-- C7: the persistence round-trip — saving the account mapping and loading
it back yields an equal mapping, and saving a user's task list and loading
it back yields an equal list (equality of keys, values, record fields and
order; on-disk formatting is deterministic and outside the comparison). -/
theorem save_load_roundtrip :
    (∀ (m : List (String × String)) (fs : FS), load_users (save_users m fs) = some m) ∧
    (∀ (user : String) (ts : List Task) (fs : FS),
      load_tasks user (save_tasks user ts fs) = some ts) :=
  ⟨load_users_save_users, load_tasks_save_tasks⟩

/-- C8: when no persisted file exists, loading never fails: the credential
store yields the empty mapping and the task store yields the empty list,
for any identity. -/
theorem missing_file_loads_empty (fs : FS) (user : String)
    (h1 : fs.usersFile = none)
    (h2 : dictGet fs.taskFiles (get_user_tasks_file user) = none) :
    load_users fs = some [] ∧ load_tasks user fs = some [] := by
  constructor
  · simp [load_users, h1]
  · simp [load_tasks, h2]

/-- C8 witness: the pristine file system. -/
theorem missing_file_loads_empty_witness :
    load_users FS.empty = some [] ∧ load_tasks userAlice FS.empty = some [] :=
  missing_file_loads_empty FS.empty userAlice rfl rfl

/-- C3: a sequence of successful adds on an initially empty task list
stores exactly the tasks `expectedAdds 0 ds` (descriptions in order, all
`Pending`), whose ids are `1, 2, …, n`: strictly increasing, pairwise
distinct, starting at `1`.  In addition (last conjunct, for any state) one
successful add on a list `ts2` appends a task with id `1` when `ts2` is
empty and `max(existing ids) + 1` otherwise. -/
theorem add_ids_strictly_increasing (user : String) (ds : List String) (fs : FS)
    (fs2 : FS) (ts2 : List Task) (d2 : String)
    (hstart : load_tasks user fs = some [])
    (hds : ∀ d ∈ ds, pyStrip d = d ∧ d ≠ "")
    (hload2 : load_tasks user fs2 = some ts2)
    (hd2 : pyStrip d2 = d2) (hd2ne : d2 ≠ "") :
    load_tasks user (run_adds user ds fs) = some (expectedAdds 0 ds) ∧
    (expectedAdds 0 ds).map Task.id = idsFrom 0 ds.length ∧
    List.Pairwise (fun a b : Int => a < b) ((expectedAdds 0 ds).map Task.id) ∧
    List.Chain' (fun a b : Int => a < b) ((expectedAdds 0 ds).map Task.id) ∧
    ((expectedAdds 0 ds).map Task.id).Nodup ∧
    (ds ≠ [] → ((expectedAdds 0 ds).map Task.id).head? = some 1) ∧
    load_tasks user (add_task user [d2] fs2).fs =
      some (ts2 ++ [Task.mk (if ts2 = [] then 1 else maxId ts2 + 1) d2 statusPending]) := by
  have hrun := run_adds_spec user ds fs [] 0 hstart rfl hds
  have hmap := expectedAdds_map_id ds 0
  have hpair : List.Pairwise (fun a b : Int => a < b) ((expectedAdds 0 ds).map Task.id) := by
    rw [hmap]
    exact pairwise_idsFrom ds.length 0
  refine ⟨by simpa using hrun, hmap, hpair, List.chain'_iff_pairwise.mpr hpair,
    List.Pairwise.imp (fun h => ne_of_lt h) hpair, ?_, ?_⟩
  · intro hne
    rcases ds with _ | ⟨d, rest⟩
    · exact absurd rfl hne
    · simp [expectedAdds]
  · have := add_task_step user d2 fs2 ts2 hload2 hd2 hd2ne
    rw [this]
    exact load_tasks_save_tasks user _ fs2

/-- C3 witness: three concrete adds from the empty store receive ids
`1, 2, 3`, and one more add on the resulting three-task list receives
`maxId + 1`. -/
theorem add_ids_strictly_increasing_witness :
    load_tasks userAlice (run_adds userAlice [descA, descB, descC] FS.empty) =
      some (expectedAdds 0 [descA, descB, descC]) ∧
    (expectedAdds 0 [descA, descB, descC]).map Task.id = idsFrom 0 [descA, descB, descC].length ∧
    List.Pairwise (fun a b : Int => a < b)
      ((expectedAdds 0 [descA, descB, descC]).map Task.id) ∧
    List.Chain' (fun a b : Int => a < b)
      ((expectedAdds 0 [descA, descB, descC]).map Task.id) ∧
    ((expectedAdds 0 [descA, descB, descC]).map Task.id).Nodup ∧
    ([descA, descB, descC] ≠ [] →
      ((expectedAdds 0 [descA, descB, descC]).map Task.id).head? = some 1) ∧
    load_tasks userAlice
      (add_task userAlice [descA] (run_adds userAlice [descA, descB, descC] FS.empty)).fs =
      some (expectedAdds 0 [descA, descB, descC] ++
        [Task.mk
          (if expectedAdds 0 [descA, descB, descC] = [] then 1
           else maxId (expectedAdds 0 [descA, descB, descC]) + 1)
          descA statusPending]) :=
  add_ids_strictly_increasing userAlice [descA, descB, descC] FS.empty
    (run_adds userAlice [descA, descB, descC] FS.empty)
    (expectedAdds 0 [descA, descB, descC]) descA
    rfl (by decide) (by decide) (by decide) (by decide)

/-- C4 counterexample: ids ARE reused after a deletion that lowers the
maximum.  From the empty store: add (id 1), add (id 2), delete id 2 —
leaving only id 1 — and the next add assigns the deleted id 2 again. -/
theorem deleted_id_reused_counterexample :
    load_tasks userAlice
        ((add_task userAlice [descB] ((add_task userAlice [descA] FS.empty).fs)).fs) =
      some [Task.mk 1 descA statusPending, Task.mk 2 descB statusPending] ∧
    pyInt strTwo = some 2 ∧
    load_tasks userAlice
        ((delete_task userAlice [strTwo]
          ((add_task userAlice [descB] ((add_task userAlice [descA] FS.empty).fs)).fs)).fs) =
      some [Task.mk 1 descA statusPending] ∧
    load_tasks userAlice
        ((add_task userAlice [descC]
          ((delete_task userAlice [strTwo]
            ((add_task userAlice [descB]
              ((add_task userAlice [descA] FS.empty).fs)).fs)).fs)).fs) =
      some [Task.mk 1 descA statusPending, Task.mk 2 descC statusPending] :=
  ⟨rfl, rfl, rfl, rfl⟩

/-- C4 (amended): a successful add always assigns an id strictly greater
than every id currently in the list — so a deleted id `t` is never reissued
while some task with id at least `t` remains; only when deletions lower the
maximum below `t` can `t` be assigned again (as the counterexample shows). -/
theorem add_id_exceeds_existing (user d : String) (fs : FS) (ts : List Task) (t : Int)
    (hload : load_tasks user fs = some ts)
    (hd : pyStrip d = d) (hdne : d ≠ "")
    (hge : ∃ x ∈ ts, t ≤ x.id) :
    (∀ x ∈ ts, x.id < (if ts = [] then 1 else maxId ts + 1)) ∧
    load_tasks user (add_task user [d] fs).fs =
      some (ts ++ [Task.mk (if ts = [] then 1 else maxId ts + 1) d statusPending]) ∧
    (if ts = [] then (1 : Int) else maxId ts + 1) ≠ t := by
  have hne : ts ≠ [] := by
    rcases hge with ⟨x, hx, _⟩
    intro h
    rw [h] at hx
    cases hx
  rw [if_neg hne]
  refine ⟨?_, ?_, ?_⟩
  · intro x hx
    exact lt_of_le_of_lt (le_maxId_of_mem ts x hx) (lt_add_one (maxId ts))
  · have hrt := load_tasks_save_tasks user (ts ++ [Task.mk (maxId ts + 1) d statusPending]) fs
    rw [add_task_step user d fs ts hload hd hdne, if_neg hne]
    exact hrt
  · rcases hge with ⟨x, hx, hxt⟩
    have := le_maxId_of_mem ts x hx
    omega

/-- C4 witness: on the one-task list `[id 1]`, an add assigns id `2`, which
exceeds every present id and differs from the still-present id `1`. -/
theorem add_id_exceeds_existing_witness :
    (∀ x ∈ [Task.mk 1 descA statusPending],
      x.id < (if [Task.mk 1 descA statusPending] = ([] : List Task) then 1
              else maxId [Task.mk 1 descA statusPending] + 1)) ∧
    load_tasks userAlice
        (add_task userAlice [descC] (save_tasks userAlice [Task.mk 1 descA statusPending] FS.empty)).fs =
      some ([Task.mk 1 descA statusPending] ++
        [Task.mk
          (if [Task.mk 1 descA statusPending] = ([] : List Task) then 1
           else maxId [Task.mk 1 descA statusPending] + 1)
          descC statusPending]) ∧
    (if [Task.mk 1 descA statusPending] = ([] : List Task) then (1 : Int)
     else maxId [Task.mk 1 descA statusPending] + 1) ≠ 1 :=
  add_id_exceeds_existing userAlice descC
    (save_tasks userAlice [Task.mk 1 descA statusPending] FS.empty)
    [Task.mk 1 descA statusPending] 1
    (load_tasks_save_tasks userAlice [Task.mk 1 descA statusPending] FS.empty)
    (by decide) (by decide) ⟨Task.mk 1 descA statusPending, by decide⟩

/-- C5: deleting an id not present in the list leaves the stored state
unchanged (no save) and reports not-found (`No tasks to delete.` on the
empty list, the not-found message otherwise); deleting a present id removes
exactly the records with that id, keeps the remaining tasks in their
relative order (a sublist), and persists the shortened list — the save
happens precisely because the length decreased. -/
theorem delete_task_spec (user s : String) (fs : FS) (ts : List Task) (t : Int)
    (hload : load_tasks user fs = some ts)
    (hs : pyInt s = some t) :
    (ts = [] → delete_task user [s] fs = ⟨some (), fs, [msgNoDelete]⟩) ∧
    (ts ≠ [] → (∀ x ∈ ts, x.id ≠ t) →
      delete_task user [s] fs =
        ⟨some (), fs, (view_tasks user fs).out ++ [msgTaskNotFound t]⟩) ∧
    ((∃ x ∈ ts, x.id = t) →
      delete_task user [s] fs =
        ⟨some (), save_tasks user (ts.filter (fun x => !(x.id = t))) fs,
         (view_tasks user fs).out ++ [msgDeleted t]⟩ ∧
      load_tasks user (delete_task user [s] fs).fs =
        some (ts.filter (fun x => !(x.id = t))) ∧
      (ts.filter (fun x => !(x.id = t))).Sublist ts ∧
      (∀ x ∈ ts.filter (fun x => !(x.id = t)), x.id ≠ t) ∧
      (∀ x ∈ ts, x.id ≠ t → x ∈ ts.filter (fun x => !(x.id = t))) ∧
      (ts.filter (fun x => !(x.id = t))).length < ts.length) := by
  refine ⟨?_, ?_, ?_⟩
  · intro hnil
    simp [delete_task, hload, hnil]
  · intro hne hmiss
    have hfeq : ts.filter (fun x => !(x.id = t)) = ts := by
      rw [List.filter_eq_self]
      intro a ha
      simp [hmiss a ha]
    have hdec : ¬(ts.filter (fun x => !(x.id = t))).length < ts.length := by
      rw [hfeq]
      omega
    exact delete_not_found user s fs ts t hload hne hs hdec
  · rintro ⟨x, hx, hxid⟩
    have hne : ts ≠ [] := by
      intro h
      rw [h] at hx
      cases hx
    have hdec : (ts.filter (fun x => !(x.id = t))).length < ts.length := by
      rw [List.length_filter_lt_length_iff_exists]
      exact ⟨x, hx, by simp [hxid]⟩
    refine ⟨delete_found user s fs ts t hload hne hs hdec, ?_, List.filter_sublist ts,
      ?_, ?_, hdec⟩
    · rw [delete_found user s fs ts t hload hne hs hdec]
      exact load_tasks_save_tasks user _ fs
    · intro y hy
      have := (List.mem_filter.mp hy).2
      simpa using this
    · intro y hy hyt
      exact List.mem_filter.mpr ⟨hy, by simpa using hyt⟩

/-- C5 witness: deleting id `2` from the two-task list removes exactly that
record; the consequent of the found case at the concrete input. -/
theorem delete_task_spec_witness :
    delete_task userAlice [strTwo]
        (save_tasks userAlice
          [Task.mk 1 descA statusPending, Task.mk 2 descB statusPending] FS.empty) =
      ⟨some (),
       save_tasks userAlice
         ([Task.mk 1 descA statusPending, Task.mk 2 descB statusPending].filter
           (fun x => !(x.id = 2)))
         (save_tasks userAlice
           [Task.mk 1 descA statusPending, Task.mk 2 descB statusPending] FS.empty),
       (view_tasks userAlice
         (save_tasks userAlice
           [Task.mk 1 descA statusPending, Task.mk 2 descB statusPending] FS.empty)).out
         ++ [msgDeleted 2]⟩ ∧
    load_tasks userAlice
        (delete_task userAlice [strTwo]
          (save_tasks userAlice
            [Task.mk 1 descA statusPending, Task.mk 2 descB statusPending] FS.empty)).fs =
      some ([Task.mk 1 descA statusPending, Task.mk 2 descB statusPending].filter
        (fun x => !(x.id = 2))) :=
  have h := (delete_task_spec userAlice strTwo
    (save_tasks userAlice
      [Task.mk 1 descA statusPending, Task.mk 2 descB statusPending] FS.empty)
    [Task.mk 1 descA statusPending, Task.mk 2 descB statusPending] 2
    (load_tasks_save_tasks userAlice _ FS.empty) (by decide)).2.2
    ⟨Task.mk 2 descB statusPending, by decide, by decide⟩
  ⟨h.1, h.2.1⟩

/-- C6 counterexample: on the empty task list no task has id `5`, yet the
failure report of `mark_task_completed` is the generic
`No tasks to mark as completed.` — it does not include the id `5`
anywhere in the transcript, contradicting the claim for the empty list. -/
theorem complete_empty_report_counterexample :
    load_tasks userAlice FS.empty = some [] ∧
    pyInt strFive = some 5 ∧
    mark_task_completed userAlice [strFive] FS.empty =
      ⟨some (), FS.empty, [msgNoComplete]⟩ ∧
    ¬ ∃ line ∈ (mark_task_completed userAlice [strFive] FS.empty).out,
        (toString (5 : Int)).data <:+: line.data :=
  ⟨rfl, rfl, rfl, by decide⟩

/-- C6 (amended): completing an id absent from a NON-empty task list
performs no save, leaves the persisted state unchanged, and its failure
report includes the id; on the empty list there is likewise no save but
only the generic no-tasks message, without the id.  When a task with the
id exists, exactly the first such task has its status set to `Completed`
(the split conjunct characterises `markFirst`). -/
theorem mark_completed_spec (user s : String) (fs : FS) (ts : List Task) (t : Int)
    (hload : load_tasks user fs = some ts)
    (hs : pyInt s = some t) :
    (ts = [] → mark_task_completed user [s] fs = ⟨some (), fs, [msgNoComplete]⟩) ∧
    (ts ≠ [] → (∀ x ∈ ts, x.id ≠ t) →
      mark_task_completed user [s] fs =
        ⟨some (), fs, (view_tasks user fs).out ++ [msgTaskNotFound t]⟩) ∧
    (toString t).data <:+: (msgTaskNotFound t).data ∧
    ((∃ x ∈ ts, x.id = t) →
      mark_task_completed user [s] fs =
        ⟨some (), save_tasks user (markFirst ts t) fs,
         (view_tasks user fs).out ++ [msgCompleted t]⟩ ∧
      load_tasks user (mark_task_completed user [s] fs).fs = some (markFirst ts t)) ∧
    (∀ (l₁ : List Task) (x : Task) (l₂ : List Task), ts = l₁ ++ x :: l₂ → x.id = t →
      (∀ y ∈ l₁, y.id ≠ t) →
      markFirst ts t = l₁ ++ { x with status := statusCompleted } :: l₂) := by
  refine ⟨?_, ?_, ?_, ?_, ?_⟩
  · intro hnil
    simp [mark_task_completed, hload, hnil]
  · intro hne hmiss
    have hany : ts.any (fun x => x.id = t) = false := by
      rw [← Bool.not_eq_true, List.any_eq_true]
      rintro ⟨x, hx, hxt⟩
      exact hmiss x hx (by simpa using hxt)
    exact mark_not_found user s fs ts t hload hne hs hany
  · exact ⟨("Task with ID ").data, (" not found.").data,
      by simp [msgTaskNotFound, String.data_append]⟩
  · rintro ⟨x, hx, hxid⟩
    have hne : ts ≠ [] := by
      intro h
      rw [h] at hx
      cases hx
    have hany : ts.any (fun x => x.id = t) = true := by
      rw [List.any_eq_true]
      exact ⟨x, hx, by simpa using hxid⟩
    refine ⟨mark_found user s fs ts t hload hne hs hany, ?_⟩
    rw [mark_found user s fs ts t hload hne hs hany]
    exact load_tasks_save_tasks user _ fs
  · intro l₁ x l₂ hsplit hxt hmiss
    rw [hsplit]
    exact markFirst_split l₁ x l₂ t hmiss hxt

/-- C6 witness: the consequent of the non-empty not-found case at a
concrete input — deleting nothing, reporting `Task with ID 5 not found.`,
which contains the id — plus the found-case consequent for id 1. -/
theorem mark_completed_spec_witness :
    mark_task_completed userAlice [strFive]
        (save_tasks userAlice [Task.mk 1 descA statusPending] FS.empty) =
      ⟨some (), save_tasks userAlice [Task.mk 1 descA statusPending] FS.empty,
       (view_tasks userAlice
         (save_tasks userAlice [Task.mk 1 descA statusPending] FS.empty)).out
         ++ [msgTaskNotFound 5]⟩ ∧
    (toString (5 : Int)).data <:+: (msgTaskNotFound 5).data :=
  have h := mark_completed_spec userAlice strFive
    (save_tasks userAlice [Task.mk 1 descA statusPending] FS.empty)
    [Task.mk 1 descA statusPending] 5
    (load_tasks_save_tasks userAlice _ FS.empty) (by decide)
  ⟨h.2.1 (by decide) (by decide), h.2.2.1⟩

def wsL : String := " "

def wsR : String := "  "

def wsAll : String := " \t "

/-- C9: registration and login strip surrounding whitespace before hashing
or lookup.  Registering with a password padded by whitespace yields the very
same state as registering with the stripped password (the hash is computed
over the stripped input); after registering `u`/`p`, logging in with the
password padded by leading/trailing whitespace still succeeds with identity
`u`; and an all-whitespace password is rejected at registration as empty,
with no state change. -/
theorem strip_whitespace_auth (fs : FS) (users : List (String × String))
    (u p w wl wr : String)
    (hload : load_users fs = some users)
    (hu : pyStrip u = u) (hune : u ≠ "") (hfresh : dictHas users u = false)
    (hp : pyStrip p = p) (hpne : p ≠ "")
    (hwl : ∀ c ∈ wl.data, isPySpace c = true)
    (hwr : ∀ c ∈ wr.data, isPySpace c = true)
    (hw : ∀ c ∈ w.data, isPySpace c = true) :
    register_user [u, wl ++ p ++ wr] fs = register_user [u, p] fs ∧
    (login_user [u, wl ++ p ++ wr] (register_user [u, p] fs).fs).retval = some (some u) ∧
    register_user [u, w] fs = ⟨some false, fs, [msgPwEmpty]⟩ := by
  have hpad : pyStrip (wl ++ p ++ wr) = p := by
    rw [pyStrip_pad wl p wr hwl hwr]
    exact hp
  have hune1 : pyStrip u ≠ "" := by rw [hu]; exact hune
  have hfresh1 : dictHas users (pyStrip u) = false := by rw [hu]; exact hfresh
  have hpne1 : pyStrip (wl ++ p ++ wr) ≠ "" := by rw [hpad]; exact hpne
  have hpne2 : pyStrip p ≠ "" := by rw [hp]; exact hpne
  refine ⟨?_, ?_, ?_⟩
  · simp only [register_user, hload]
    rw [register_go_success users fs u (wl ++ p ++ wr) [] hune1 hfresh1 hpne1,
        register_go_success users fs u p [] hune1 hfresh1 hpne2, hpad, hp]
  · have hreg : register_user [u, p] fs =
        ⟨some true, save_users (dictInsert users u (hash_password p)) fs,
         [msgRegSuccess]⟩ := by
      simp only [register_user, hload]
      rw [register_go_success users fs u p [] hune1 hfresh1 hpne2, hu, hp]
    have hload2 : load_users (register_user [u, p] fs).fs =
        some (dictInsert users u (hash_password p)) := by
      rw [hreg]
      exact load_users_save_users _ fs
    have hlogin := login_user_success (register_user [u, p] fs).fs
      (dictInsert users u (hash_password p)) u (wl ++ p ++ wr) hload2
      (by rw [hu]; exact dictHas_insert_self users u (hash_password p))
      (by rw [hu, hpad]; exact dictGet_insert_self users u (hash_password p))
    rw [hlogin, hu]
  · simp only [register_user, hload]
    rw [register_go_pwempty users fs u w [] hune1 hfresh1 (pyStrip_all_space w hw)]

/-- C9 witness: `alice`/`secret1` registered from the empty store; a login
with the password padded as `" secret1  "` succeeds, registering with the
padded password gives the identical state, and the all-whitespace password
is rejected. -/
theorem strip_whitespace_auth_witness :
    register_user [userAlice, wsL ++ pwOne ++ wsR] FS.empty =
      register_user [userAlice, pwOne] FS.empty ∧
    (login_user [userAlice, wsL ++ pwOne ++ wsR]
      (register_user [userAlice, pwOne] FS.empty).fs).retval = some (some userAlice) ∧
    register_user [userAlice, wsAll] FS.empty = ⟨some false, FS.empty, [msgPwEmpty]⟩ :=
  strip_whitespace_auth FS.empty [] userAlice pwOne wsAll wsL wsR rfl (by decide)
    (by decide) (by decide) (by decide) (by decide) (by decide) (by decide) (by decide)

/-- C10: `mark_task_completed` is idempotent and does not require the task
to be `Pending`: when a task with the id exists, running it a second time
on the resulting state changes nothing (same stored state), reports success
again (its transcript ends with the success message), and the stored list
is the once-marked list. -/
theorem complete_idempotent (user s : String) (fs : FS) (ts : List Task) (t : Int)
    (hload : load_tasks user fs = some ts)
    (hs : pyInt s = some t)
    (hmem : ∃ x ∈ ts, x.id = t) :
    (mark_task_completed user [s] ((mark_task_completed user [s] fs).fs)).fs =
      (mark_task_completed user [s] fs).fs ∧
    (mark_task_completed user [s] ((mark_task_completed user [s] fs).fs)).retval = some () ∧
    (mark_task_completed user [s] ((mark_task_completed user [s] fs).fs)).out.getLast? =
      some (msgCompleted t) ∧
    load_tasks user ((mark_task_completed user [s] fs).fs) = some (markFirst ts t) := by
  rcases hmem with ⟨x, hx, hxid⟩
  have hne : ts ≠ [] := by
    intro h
    rw [h] at hx
    cases hx
  have hany : ts.any (fun y => y.id = t) = true := by
    rw [List.any_eq_true]
    exact ⟨x, hx, by simpa using hxid⟩
  have h1 := mark_found user s fs ts t hload hne hs hany
  have hload1 : load_tasks user (mark_task_completed user [s] fs).fs =
      some (markFirst ts t) := by
    rw [h1]
    exact load_tasks_save_tasks user _ fs
  have hne1 : markFirst ts t ≠ [] := by
    rw [Ne, markFirst_eq_nil_iff]
    exact hne
  have hany1 : (markFirst ts t).any (fun y => y.id = t) = true := by
    rw [markFirst_any]
    exact hany
  have h2 := mark_found user s ((mark_task_completed user [s] fs).fs)
    (markFirst ts t) t hload1 hne1 hs hany1
  rw [h2, h1]
  refine ⟨?_, rfl, ?_, by rw [← h1]; exact hload1⟩
  · show save_tasks user (markFirst (markFirst ts t) t)
        (save_tasks user (markFirst ts t) fs) = save_tasks user (markFirst ts t) fs
    rw [markFirst_idem]
    exact save_tasks_idem user (markFirst ts t) fs
  · show ((view_tasks user (save_tasks user (markFirst ts t) fs)).out
        ++ [msgCompleted t]).getLast? = some (msgCompleted t)
    exact List.getLast?_concat _

/-- C10 witness: completing task `1` twice from the singleton store: the
second run leaves the state exactly as after the first and still reports
success. -/
theorem complete_idempotent_witness :
    (mark_task_completed userAlice [strOne]
      ((mark_task_completed userAlice [strOne]
        (save_tasks userAlice [Task.mk 1 descA statusPending] FS.empty)).fs)).fs =
      (mark_task_completed userAlice [strOne]
        (save_tasks userAlice [Task.mk 1 descA statusPending] FS.empty)).fs ∧
    (mark_task_completed userAlice [strOne]
      ((mark_task_completed userAlice [strOne]
        (save_tasks userAlice [Task.mk 1 descA statusPending] FS.empty)).fs)).retval =
      some () ∧
    (mark_task_completed userAlice [strOne]
      ((mark_task_completed userAlice [strOne]
        (save_tasks userAlice [Task.mk 1 descA statusPending] FS.empty)).fs)).out.getLast? =
      some (msgCompleted 1) ∧
    load_tasks userAlice
      ((mark_task_completed userAlice [strOne]
        (save_tasks userAlice [Task.mk 1 descA statusPending] FS.empty)).fs) =
      some (markFirst [Task.mk 1 descA statusPending] 1) :=
  complete_idempotent userAlice strOne
    (save_tasks userAlice [Task.mk 1 descA statusPending] FS.empty)
    [Task.mk 1 descA statusPending] 1
    (load_tasks_save_tasks userAlice _ FS.empty) (by decide)
    ⟨Task.mk 1 descA statusPending, by decide⟩

end App
